import Mathlib

/-!
Shallow embedding of the training-job orchestrator of the repository
(src/ml-services/app/services/training_service.py,
src/ml-services/app/models/training_job.py,
src/ml-services/app/models/training_config.py and the list endpoint of
src/ml-services/app/controllers/training_controller.py), together with
theorems settling the specification claims about it.

Modelling conventions:
* Python dicts are insertion-ordered association lists with unique keys;
  assignment replaces in place or appends at the end, exactly like CPython.
* A `datetime` value is an abstract timestamp (`Nat`).  An isoformat string
  is represented by the timestamp it denotes (constructor `JValue.dt`),
  which is sound because `datetime.fromisoformat` is a left inverse of
  `datetime.isoformat` and `isoformat` is injective.  Each call site of
  `datetime.now()` takes the current time as an explicit argument.
* Python floats are modelled as exact rationals (`Rat`); `int(x)` on a
  non-negative value is `Int.floor`.  (Double rounding can lower some
  intermediate progress values by one; no claim below depends on that.)
* `hash(job_id)` is an unspecified parameter `pyHash` of the semantics.
* Statuses are the literal Python strings used by the code.
-/

namespace LearningBigData

/-- JSON-like values stored in the Python dicts of the model layer.
`dt v` stands both for a `datetime` object with timestamp `v` and for its
isoformat string (see the module docstring). -/
inductive JValue where
  | null : JValue
  | str (v : String) : JValue
  | int (v : Int) : JValue
  | num (v : Rat) : JValue
  | bool (v : Bool) : JValue
  | dt (v : Nat) : JValue
  | dict (entries : List (String × JValue)) : JValue

/-- A Python dict with string keys and heterogeneous values. -/
abbrev PyDict := List (String × JValue)

/-- Lookup in an insertion-ordered dict (`d.get(k)` / `d[k]`). -/
def dictGet {α : Type} (d : List (String × α)) (k : String) : Option α :=
  match d with
  | [] => none
  | (k2, v) :: rest => if k2 = k then some v else dictGet rest k

/-- Assignment `d[k] = v`: replace in place if the key exists, else append. -/
def dictSet {α : Type} (d : List (String × α)) (k : String) (v : α) :
    List (String × α) :=
  match d with
  | [] => [(k, v)]
  | (k2, v2) :: rest =>
    if k2 = k then (k2, v) :: rest else (k2, v2) :: dictSet rest k v

/-- Removal `d.pop(k, None)`. -/
def dictPop {α : Type} (d : List (String × α)) (k : String) :
    List (String × α) :=
  d.filter (fun kv => kv.1 ≠ k)

/-- The `TrainingJob` record of app/models/training_job.py.  The field
`metrics_attr` models the attribute `metrics` that
`TrainingService._execute_training_job` adds dynamically with
`job.metrics = \x7b...\x7d`; it is declared by no model code and is not
serialized by `to_dict`. -/
structure TrainingJob where
  job_id : String
  model_name : String
  algorithm : String
  config : PyDict
  status : String
  started_at : Nat
  completed_at : Option Nat
  created_by : String
  job_type : String
  progress : Int
  current_metrics : PyDict
  final_metrics : PyDict
  model_path : Option String
  error_message : Option String
  tuning_strategy : Option String
  max_trials : Option Int
  estimated_completion : Option Nat
  metrics_attr : Option PyDict

/-- The constructor `TrainingJob.__init__` (training_job.py, lines 18-55).
`now` is the value `datetime.now()` would return for the default of
`started_at`; a `datetime` object is always truthy, so
`started_at or datetime.now()` keeps any provided timestamp.  The keyword
arguments of `**kwargs` are applied afterwards by `TrainingJob.setAttr`
(see `from_dict`). -/
def TrainingJob.make (now : Nat) (job_id model_name algorithm : String)
    (config : PyDict)
    (status : String := "queued")
    (started_at : Option Nat := none)
    (completed_at : Option Nat := none)
    (created_by : String := "system")
    (job_type : String := "training") : TrainingJob :=
  { job_id := job_id
    model_name := model_name
    algorithm := algorithm
    config := config
    status := status
    started_at := started_at.getD now
    completed_at := completed_at
    created_by := created_by
    job_type := job_type
    progress := 0
    current_metrics := []
    final_metrics := []
    model_path := none
    error_message := none
    tuning_strategy := none
    max_trials := none
    estimated_completion := none
    metrics_attr := none }

/-- Serialization of an `Option String` field by `to_dict`. -/
def optStr : Option String → JValue
  | none => JValue.null
  | some v => JValue.str v

/-- Serialization of an optional datetime field by `to_dict`
(`x.isoformat() if x else None`; a datetime object is always truthy). -/
def optDt : Option Nat → JValue
  | none => JValue.null
  | some v => JValue.dt v

/-- Serialization of an `Option Int` field by `to_dict`. -/
def optInt : Option Int → JValue
  | none => JValue.null
  | some v => JValue.int v

/-- `TrainingJob.to_dict` (training_job.py, lines 70-90).  Note that the
dynamically added `metrics` attribute is not part of the serialization. -/
def TrainingJob.to_dict (j : TrainingJob) : PyDict :=
  [("job_id", JValue.str j.job_id),
   ("model_name", JValue.str j.model_name),
   ("algorithm", JValue.str j.algorithm),
   ("config", JValue.dict j.config),
   ("status", JValue.str j.status),
   ("started_at", JValue.dt j.started_at),
   ("completed_at", optDt j.completed_at),
   ("created_by", JValue.str j.created_by),
   ("job_type", JValue.str j.job_type),
   ("progress", JValue.int j.progress),
   ("current_metrics", JValue.dict j.current_metrics),
   ("final_metrics", JValue.dict j.final_metrics),
   ("model_path", optStr j.model_path),
   ("error_message", optStr j.error_message),
   ("tuning_strategy", optStr j.tuning_strategy),
   ("max_trials", optInt j.max_trials),
   ("estimated_completion", optDt j.estimated_completion)]

/-- One `setattr(self, key, value)` step of the `**kwargs` loop at the end
of `TrainingJob.__init__`.  The typed embedding keeps a value only when it
has the declared type of the named attribute; `from_dict` only ever passes
values produced by `to_dict`, for which this is exact. -/
def TrainingJob.setAttr (j : TrainingJob) (k : String) (v : JValue) :
    TrainingJob :=
  if k = "progress" then
    match v with | JValue.int n => { j with progress := n } | _ => j
  else if k = "current_metrics" then
    match v with | JValue.dict m => { j with current_metrics := m } | _ => j
  else if k = "final_metrics" then
    match v with | JValue.dict m => { j with final_metrics := m } | _ => j
  else if k = "model_path" then
    match v with
    | JValue.null => { j with model_path := none }
    | JValue.str s => { j with model_path := some s }
    | _ => j
  else if k = "error_message" then
    match v with
    | JValue.null => { j with error_message := none }
    | JValue.str s => { j with error_message := some s }
    | _ => j
  else if k = "tuning_strategy" then
    match v with
    | JValue.null => { j with tuning_strategy := none }
    | JValue.str s => { j with tuning_strategy := some s }
    | _ => j
  else if k = "max_trials" then
    match v with
    | JValue.null => { j with max_trials := none }
    | JValue.int n => { j with max_trials := some n }
    | _ => j
  else if k = "estimated_completion" then
    match v with
    | JValue.null => { j with estimated_completion := none }
    | JValue.dt d => { j with estimated_completion := some d }
    | _ => j
  else if k = "metrics" then
    match v with | JValue.dict m => { j with metrics_attr := some m } | _ => j
  else j

/-- The parameter names that `TrainingJob.__init__` binds by name; every
other key of the input dict of `from_dict` reaches the `**kwargs` loop. -/
def trainingJobNamedKeys : List String :=
  ["job_id", "model_name", "algorithm", "config", "status", "started_at",
   "completed_at", "created_by", "job_type"]

/-- `TrainingJob.from_dict` (training_job.py, lines 57-68): the three
datetime-typed entries are parsed from their isoformat strings, then the
class is constructed with `cls(**data)`.  Returns `none` where Python
would raise a `TypeError` (missing or ill-typed named argument). -/
def TrainingJob.from_dict (now : Nat) (d : PyDict) : Option TrainingJob :=
  let getStr : String → Option String := fun k =>
    match dictGet d k with | some (JValue.str v) => some v | _ => none
  let getStrD : String → String → Option String := fun k dflt =>
    match dictGet d k with
    | none => some dflt
    | some (JValue.str v) => some v
    | _ => none
  let getOptDt : String → Option (Option Nat) := fun k =>
    match dictGet d k with
    | none => some none
    | some JValue.null => some none
    | some (JValue.dt v) => some (some v)
    | _ => none
  match getStr "job_id", getStr "model_name", getStr "algorithm",
        dictGet d "config", getStrD "status" "queued",
        getOptDt "started_at", getOptDt "completed_at",
        getStrD "created_by" "system", getStrD "job_type" "training" with
  | some jid, some mn, some alg, some (JValue.dict cfg), some st,
    some sa, some ca, some cb, some jt =>
    let base := TrainingJob.make now jid mn alg cfg st sa ca cb jt
    some (d.foldl
      (fun j kv =>
        if kv.1 ∈ trainingJobNamedKeys then j else j.setAttr kv.1 kv.2)
      base)
  | _, _, _, _, _, _, _, _, _ => none

/-- The `TrainingConfig` record of app/models/training_config.py, as left
by its constructor. -/
structure TrainingConfig where
  model_name : String
  algorithm : String
  dataset_version : String
  experiment_name : String
  hyperparameter_tuning : Bool
  config : PyDict

/-- The constructor `TrainingConfig.__init__`: an absent or empty
`experiment_name` (empty strings are falsy) defaults to
`model_name + "_experiment"`, and an absent `config` defaults to the empty
dict. -/
def TrainingConfig.make (model_name algorithm : String)
    (dataset_version : String := "latest")
    (experiment_name : Option String := none)
    (hyperparameter_tuning : Bool := false)
    (config : Option PyDict := none) : TrainingConfig :=
  { model_name := model_name
    algorithm := algorithm
    dataset_version := dataset_version
    experiment_name :=
      match experiment_name with
      | some e => if e = "" then model_name ++ "_experiment" else e
      | none => model_name ++ "_experiment"
    hyperparameter_tuning := hyperparameter_tuning
    config := config.getD [] }

/-- `TrainingConfig.to_dict` (training_config.py, lines 43-52). -/
def TrainingConfig.to_dict (c : TrainingConfig) : PyDict :=
  [("model_name", JValue.str c.model_name),
   ("algorithm", JValue.str c.algorithm),
   ("dataset_version", JValue.str c.dataset_version),
   ("experiment_name", JValue.str c.experiment_name),
   ("hyperparameter_tuning", JValue.bool c.hyperparameter_tuning),
   ("config", JValue.dict c.config)]

/-- The mutable state of a `TrainingService` instance
(training_service.py, lines 28-39).  `training_jobs` is the JobRecord
store, `job_queue` the FIFO job queue, and `running_jobs` the key set of
the `running_jobs` dict (its values alias the records in the store). -/
structure TrainingService where
  training_jobs : List (String × TrainingJob)
  job_queue : List String
  max_concurrent_jobs : Nat
  running_jobs : List String

/-- `TrainingService.__init__`: empty store and queue;
`max_concurrent_jobs` comes from `config.get('max_concurrent_jobs', 3)`. -/
def TrainingService.make (config : List (String × Nat)) : TrainingService :=
  { training_jobs := []
    job_queue := []
    max_concurrent_jobs := (dictGet config "max_concurrent_jobs").getD 3
    running_jobs := [] }

/-- In-place mutation of the record stored under `id`, as seen through the
store (Python mutates the shared object; every alias observes it). -/
def updateJob (s : TrainingService) (id : String)
    (f : TrainingJob → TrainingJob) : TrainingService :=
  { s with training_jobs :=
      s.training_jobs.map (fun kv => if kv.1 = id then (kv.1, f kv.2) else kv) }

/-- `TrainingService.get_training_job` (lines 182-184). -/
def TrainingService.get_training_job (s : TrainingService) (job_id : String) :
    Option TrainingJob :=
  dictGet s.training_jobs job_id

/-- `TrainingService.start_training` (lines 60-83): create the record with
status `queued` and `started_at = datetime.now()`, store it, enqueue the
id, and return the job without waiting for execution. -/
def TrainingService.start_training (s : TrainingService) (now : Nat)
    (job_id : String) (config : TrainingConfig) :
    TrainingService × TrainingJob :=
  let job := TrainingJob.make now job_id config.model_name config.algorithm
    config.to_dict "queued" (some now) none "system" "training"
  ({ s with training_jobs := dictSet s.training_jobs job_id job
            job_queue := s.job_queue ++ [job_id] }, job)

/-- `TrainingService.cancel_training_job` (lines 200-216). -/
def TrainingService.cancel_training_job (s : TrainingService) (now : Nat)
    (job_id : String) : Bool × TrainingService :=
  match dictGet s.training_jobs job_id with
  | none => (false, s)
  | some job =>
    if job.status = "queued" ∨ job.status = "running" then
      let s2 := updateJob s job_id
        (fun j => { j with status := "cancelled", completed_at := some now })
      (true, { s2 with running_jobs := dictPop' s2.running_jobs job_id })
    else (false, s)
where
  /-- Key removal on the key list of `running_jobs`. -/
  dictPop' (ks : List String) (k : String) : List String :=
    ks.filter (fun k2 => k2 ≠ k)

/-- `TrainingService.list_training_jobs` (lines 186-198).  Note the
signature: there is no `offset` parameter.  An absent or empty `status`
(falsy) disables the filter; the sort is CPython's stable sort with
`reverse=True` on `started_at`. -/
def TrainingService.list_training_jobs (s : TrainingService)
    (limit : Nat := 100) (status : Option String := none) :
    List TrainingJob :=
  let jobs := s.training_jobs.map Prod.snd
  let jobs :=
    match status with
    | some st => if st = "" then jobs else jobs.filter (fun j => j.status = st)
    | none => jobs
  let sorted := jobs.mergeSort (fun a b => Nat.ble b.started_at a.started_at)
  sorted.take limit

/-- The parameter names of `TrainingService.list_training_jobs` that a
keyword call can bind (besides `self`). -/
def listTrainingJobsParams : List String := ["limit", "status"]

/-- The keyword arguments the list endpoint of
app/controllers/training_controller.py (lines 209-213) passes to
`list_training_jobs`. -/
def controllerListCallKwargs : List String := ["status", "limit", "offset"]

/-- Whether a Python keyword call binds: every keyword must name a
parameter, otherwise the call raises `TypeError`. -/
def pythonKwargsBind (params kwargs : List String) : Bool :=
  kwargs.all (fun k => params.contains k)

/-- The record returned by `TrainingService.get_training_statistics`. -/
structure TrainingStatistics where
  total_jobs : Nat
  status_breakdown : List (String × Nat)
  success_rate : Rat
  currently_running : Nat
  queue_size : Nat
  max_concurrent_jobs : Nat
  timestamp : Nat

/-- One step of the status-counting loop:
`status_counts[st] = status_counts.get(st, 0) + 1`. -/
def bumpCount (acc : List (String × Nat)) (st : String) :
    List (String × Nat) :=
  dictSet acc st ((dictGet acc st).getD 0 + 1)

/-- `TrainingService.get_training_statistics` (lines 218-240).  The float
division of `success_rate` is modelled as exact rational division. -/
def TrainingService.get_training_statistics (s : TrainingService)
    (now : Nat) : TrainingStatistics :=
  let status_counts := s.training_jobs.foldl
    (fun acc kv => bumpCount acc kv.2.status) []
  let completed_jobs := (dictGet status_counts "completed").getD 0
  let failed_jobs := (dictGet status_counts "failed").getD 0
  { total_jobs := s.training_jobs.length
    status_breakdown := status_counts
    success_rate :=
      if completed_jobs + failed_jobs > 0 then
        (completed_jobs : Rat) / ((completed_jobs : Rat) + (failed_jobs : Rat))
      else 0
    currently_running := s.running_jobs.length
    queue_size := s.job_queue.length
    max_concurrent_jobs := s.max_concurrent_jobs
    timestamp := now }

/-! The job executor, `_execute_training_job` and `_simulate_training`
(training_service.py, lines 85-146).  The worker runs it synchronously, but
external callers can interleave `cancel_training_job` between any two of
its atomic record updates; the executor is therefore split into its atomic
pieces (`setRunningState`, one `simulateStepBody` per loop iteration,
`finishState`, and the exception handler `execExcept`), and
`executeTrainingJob` composes them in program order. -/

/-- Iteration count of the simulated training loop, `total_steps = 100`. -/
def totalSteps : Nat := 100

/-- The body of one iteration of the `_simulate_training` loop (lines
133-146): update `progress = int((step + 1) / total_steps * 100)` and, on
every tenth step, replace `current_metrics`.  The status is never read. -/
def simulateStepBody (step : Nat) (j : TrainingJob) : TrainingJob :=
  let j2 :=
    { j with progress := Int.floor ((((step : Rat) + 1) / (totalSteps : Rat)) * 100) }
  if step % 10 = 0 then
    { j2 with current_metrics :=
      [("loss", JValue.num (1.0 - ((step : Rat) / (totalSteps : Rat)) * 0.8)),
       ("accuracy",
        JValue.num (0.5 + ((step : Rat) / (totalSteps : Rat)) * 0.4)),
       ("epoch", JValue.int (step / 10))] }
  else j2

/-- `_simulate_training` in full: the loop `for step in range(total_steps)`
over `simulateStepBody`. -/
def simulateTraining (s : TrainingService) (job_id : String) :
    TrainingService :=
  (List.range totalSteps).foldl
    (fun s2 step => updateJob s2 job_id (simulateStepBody step)) s

/-- The prologue of `_execute_training_job` (lines 93-96): set the status
to `running` unconditionally, reset `started_at`, and register the job in
`running_jobs`.  No previous status is checked. -/
def setRunningState (s : TrainingService) (job_id : String) (now : Nat) :
    TrainingService :=
  let s2 := updateJob s job_id
    (fun j => { j with status := "running", started_at := now })
  { s2 with running_jobs :=
      if job_id ∈ s2.running_jobs then s2.running_jobs
      else s2.running_jobs ++ [job_id] }

/-- The dict the completion block assigns to the (previously undeclared)
attribute `job.metrics` (lines 110-115). -/
def finalMetricsFor (pyHash : String → Int) (job_id : String) : PyDict :=
  [("accuracy", JValue.num (0.95 + ((pyHash job_id % 50 : Int) : Rat) / 1000)),
   ("precision", JValue.num (0.93 + ((pyHash job_id % 70 : Int) : Rat) / 1000)),
   ("recall", JValue.num (0.92 + ((pyHash job_id % 80 : Int) : Rat) / 1000)),
   ("f1_score", JValue.num (0.94 + ((pyHash job_id % 60 : Int) : Rat) / 1000))]

/-- The completion block of `_execute_training_job` (lines 103-115) plus
the `finally` clause (line 127): unconditionally set status `completed`,
`completed_at`, `progress = 100` and `model_path`, assign the metrics dict
to the stray attribute `job.metrics` (never to `final_metrics`), and
remove the job from `running_jobs`.  No compare-and-transition guards the
status write. -/
def finishState (pyHash : String → Int) (s : TrainingService)
    (job_id : String) (now : Nat) : TrainingService :=
  let s2 := updateJob s job_id (fun j =>
    { j with status := "completed"
             completed_at := some now
             progress := 100
             model_path := some ("models/" ++ j.model_name ++ "_" ++ job_id)
             metrics_attr := some (finalMetricsFor pyHash job_id) })
  { s2 with running_jobs := s2.running_jobs.filter (fun k => k ≠ job_id) }

/-- The `except` handler of `_execute_training_job` (lines 119-123) plus
the `finally` clause: unconditionally set status `failed`, record the
error message and `completed_at`, and deregister the job. -/
def execExcept (s : TrainingService) (job_id : String) (err : String)
    (now : Nat) : TrainingService :=
  let s2 := updateJob s job_id (fun j =>
    { j with status := "failed"
             error_message := some err
             completed_at := some now })
  { s2 with running_jobs := s2.running_jobs.filter (fun k => k ≠ job_id) }

/-- `_execute_training_job` run without interleaving: look the job up (a
missing id returns immediately), then the prologue, the loop, and the
completion block.  `now` is the time at the `running` write and `now2` the
time at the `completed` write. -/
def executeTrainingJob (pyHash : String → Int) (s : TrainingService)
    (job_id : String) (now now2 : Nat) : TrainingService :=
  match dictGet s.training_jobs job_id with
  | none => s
  | some _ =>
    finishState pyHash (simulateTraining (setRunningState s job_id now)
      job_id) job_id now2

/-- One pass of the `_training_worker` loop (lines 47-58): pop one id from
the queue; if it is a key of `training_jobs` — the only check performed —
execute it synchronously; an id absent from the store is skipped. -/
def trainingWorkerIteration (pyHash : String → Int) (s : TrainingService)
    (now now2 : Nat) : TrainingService :=
  match s.job_queue with
  | [] => s
  | job_id :: rest =>
    let s2 := { s with job_queue := rest }
    if (dictGet s2.training_jobs job_id).isSome then
      executeTrainingJob pyHash s2 job_id now now2
    else s2

/-! Atomic operations on one job as interleavings of the executor and the
cancellation path see them, for the progress claims. -/

/-- The atomic record updates the orchestrator performs on one job while a
worker executes it, with external cancellation requests interleaved. -/
inductive JobOp where
  | setRun : JobOp
  | loopStep (k : Nat) : JobOp
  | finishOp : JobOp
  | cancelOp : JobOp

/-- Apply one atomic operation to the service state. -/
def applyJobOp (pyHash : String → Int) (now : Nat) (id : String)
    (s : TrainingService) : JobOp → TrainingService
  | JobOp.setRun => setRunningState s id now
  | JobOp.loopStep k => updateJob s id (simulateStepBody k)
  | JobOp.finishOp => finishState pyHash s id now
  | JobOp.cancelOp => (s.cancel_training_job now id).2

/-- Every element of the list is a cancellation request. -/
def OnlyCancels (ops : List JobOp) : Prop :=
  ∀ op ∈ ops, op = JobOp.cancelOp

/-- The executor's operation sequences for one job, starting from loop
index `k`: loop iterations run in program order (`k`, `k+1`, …), the
completion block runs after the last iteration, and cancellation requests
can land between any two operations.  `OpsFrom k ops` also admits every
prefix (a trace observed mid-run). -/
inductive OpsFrom : Nat → List JobOp → Prop where
  | nil (k : Nat) : OpsFrom k []
  | cancel (k : Nat) (rest : List JobOp) (h : OpsFrom k rest) :
      OpsFrom k (JobOp.cancelOp :: rest)
  | step (k : Nat) (rest : List JobOp) (hk : k < totalSteps)
      (h : OpsFrom (k + 1) rest) : OpsFrom k (JobOp.loopStep k :: rest)
  | fin (rest : List JobOp) (h : OnlyCancels rest) :
      OpsFrom totalSteps (JobOp.finishOp :: rest)

/-- Progress of the job stored under `id` (0 when absent). -/
def jobProgress (s : TrainingService) (id : String) : Int :=
  ((dictGet s.training_jobs id).map TrainingJob.progress).getD 0

/-- Status of the job stored under `id`. -/
def jobStatus (s : TrainingService) (id : String) : Option String :=
  (dictGet s.training_jobs id).map TrainingJob.status

/-! Concrete scenario states used by counterexamples and witnesses. -/

/-- A concrete stand-in for Python's `hash`; no claim depends on its
values. -/
def pyHash0 : String → Int := fun _ => 0

/-- A valid training configuration, as the controller would build it. -/
def scenarioConfig : TrainingConfig :=
  TrainingConfig.make "fraud_model" "random_forest"

/-- A service constructed with the default `max_concurrent_jobs = 3`. -/
def scenarioService0 : TrainingService := TrainingService.make []

/-- The id of the submitted job in the concrete scenarios. -/
def scenarioJobId : String := "job-1"

/-- The service right after `start_training` at time 0. -/
def scenarioSubmitted : TrainingService :=
  (scenarioService0.start_training 0 scenarioJobId scenarioConfig).1

/-- Scenario for C1: the queued job is cancelled at time 1, before any
worker dequeues it. -/
def c1CancelResult : Bool × TrainingService :=
  scenarioSubmitted.cancel_training_job 1 scenarioJobId

/-- State after the successful cancellation of the queued job. -/
def c1AfterCancel : TrainingService := c1CancelResult.2

/-- State after a worker then dequeues the cancelled job's id and runs one
iteration of its loop. -/
def c1AfterWorker : TrainingService :=
  trainingWorkerIteration pyHash0 c1AfterCancel 2 3

/-- Scenario for C2/C6: a worker started the job at time 1 and has
executed the first five loop iterations. -/
def c2MidLoop : TrainingService :=
  (List.range 5).foldl
    (fun s k => updateJob s scenarioJobId (simulateStepBody k))
    (setRunningState scenarioSubmitted scenarioJobId 1)

/-- An external caller cancels the running job at time 2, between two loop
iterations. -/
def c2CancelResult : Bool × TrainingService :=
  c2MidLoop.cancel_training_job 2 scenarioJobId

/-- State right after the mid-run cancellation. -/
def c2AfterCancel : TrainingService := c2CancelResult.2

/-- The executor's next loop iteration after the cancellation landed. -/
def c6NextStep : TrainingService :=
  updateJob c2AfterCancel scenarioJobId (simulateStepBody 5)

/-- The executor finishes the loop (iterations 5 to 99) and runs its
completion block, never having read the status. -/
def c2Final : TrainingService :=
  finishState pyHash0
    (((List.range totalSteps).drop 5).foldl
      (fun s k => updateJob s scenarioJobId (simulateStepBody k))
      c2AfterCancel)
    scenarioJobId 3

/-- Scenario for C3: the submitted job runs to normal completion. -/
def c3Final : TrainingService :=
  trainingWorkerIteration pyHash0 scenarioSubmitted 1 2

/-! The worker pool of `_start_workers` and `_training_worker`
(training_service.py, lines 41-58), modelled as a transition system for
the capacity claim.  The claim stipulates executors that block
indefinitely, so a worker that has entered `_execute_training_job` has
performed the status write of its prologue and then stays inside
`_simulate_training` forever. -/

/-- Execution stage of one worker thread. -/
inductive WorkerPh where
  | idle : WorkerPh
  | picked (id : String) : WorkerPh
  | blocked (id : String) : WorkerPh
deriving DecidableEq

/-- A worker pool state: the shared service state plus the stage of each
of the `max_concurrent_jobs` worker threads. -/
structure PoolState where
  svc : TrainingService
  workers : List WorkerPh

/-- Interleaved execution of the worker threads: a free worker pops the
queue head; a worker holding an id absent from the store skips it; a
worker holding a stored id enters the executor, performs the `running`
status write, and then blocks forever inside the training loop. -/
inductive PoolStep : PoolState → PoolState → Prop where
  | pick (p : PoolState) (i : Nat) (id : String) (rest : List String)
      (hw : p.workers.get? i = some WorkerPh.idle)
      (hq : p.svc.job_queue = id :: rest) :
      PoolStep p
        { svc := { p.svc with job_queue := rest }
          workers := p.workers.set i (WorkerPh.picked id) }
  | skip (p : PoolState) (i : Nat) (id : String)
      (hw : p.workers.get? i = some (WorkerPh.picked id))
      (habs : dictGet p.svc.training_jobs id = none) :
      PoolStep p { svc := p.svc, workers := p.workers.set i WorkerPh.idle }
  | enter (p : PoolState) (i : Nat) (id : String) (now : Nat)
      (j : TrainingJob)
      (hw : p.workers.get? i = some (WorkerPh.picked id))
      (hj : dictGet p.svc.training_jobs id = some j) :
      PoolStep p
        { svc := setRunningState p.svc id now
          workers := p.workers.set i (WorkerPh.blocked id) }

/-- Reachability in the pool transition system. -/
def PoolReachable (p0 p : PoolState) : Prop :=
  Relation.ReflTransGen PoolStep p0 p

/-- A pool state from which no thread can make progress. -/
def Quiescent (p : PoolState) : Prop := ∀ p2, ¬ PoolStep p p2

/-- Whether a worker is blocked inside an executor. -/
def isBlocked : WorkerPh → Bool
  | WorkerPh.blocked _ => true
  | _ => false

/-- Whether a worker holds a popped id it has not yet looked up. -/
def isPicked : WorkerPh → Bool
  | WorkerPh.picked _ => true
  | _ => false

/-- The id a worker currently holds, if any. -/
def heldId : WorkerPh → Option String
  | WorkerPh.idle => none
  | WorkerPh.picked id => some id
  | WorkerPh.blocked id => some id

/-- All ids currently held by workers. -/
def heldIds (ws : List WorkerPh) : List String := ws.filterMap heldId

/-- Number of stored jobs whose status is `st`. -/
def statusCount (s : TrainingService) (st : String) : Nat :=
  s.training_jobs.countP (fun kv => kv.2.status == st)

/-- Submission of a batch of jobs through `start_training`, all at time
0. -/
def submitAll (s : TrainingService)
    (jobs : List (String × TrainingConfig)) : TrainingService :=
  jobs.foldl (fun s2 kc => (s2.start_training 0 kc.1 kc.2).1) s

/-- The initial pool state: a service constructed with
`max_concurrent_jobs = maxJobs` (hence `maxJobs` worker threads), with the
given jobs submitted and no worker started on anything yet. -/
def initPool (maxJobs : Nat) (jobs : List (String × TrainingConfig)) :
    PoolState :=
  { svc := submitAll
      (TrainingService.make [("max_concurrent_jobs", maxJobs)]) jobs
    workers := List.replicate maxJobs WorkerPh.idle }

/-- Inductive invariant of the pool transition system: worker-held and
queued ids are pairwise distinct and stored with the status their holder
implies, and the status counts in the store agree with the worker
stages. -/
structure PoolInv (N numJobs : Nat) (p : PoolState) : Prop where
  wlen : p.workers.length = N
  keysnd : (p.svc.training_jobs.map Prod.fst).Nodup
  qstat : ∀ id ∈ p.svc.job_queue, ∃ j,
    dictGet p.svc.training_jobs id = some j ∧ j.status = "queued"
  pstat : ∀ id, WorkerPh.picked id ∈ p.workers → ∃ j,
    dictGet p.svc.training_jobs id = some j ∧ j.status = "queued"
  bstat : ∀ id, WorkerPh.blocked id ∈ p.workers → ∃ j,
    dictGet p.svc.training_jobs id = some j ∧ j.status = "running"
  runcount : statusCount p.svc "running" = p.workers.countP isBlocked
  qcount : statusCount p.svc "queued" =
    p.svc.job_queue.length + p.workers.countP isPicked
  total : p.svc.job_queue.length + p.workers.countP isPicked +
    p.workers.countP isBlocked = numJobs
  owned : (heldIds p.workers ++ p.svc.job_queue).Nodup

/-- Two concrete jobs for the capacity witness (pool size 1). -/
def c9Jobs : List (String × TrainingConfig) :=
  [("a", TrainingConfig.make "m1" "random_forest"),
   ("b", TrainingConfig.make "m2" "random_forest")]

/-- The initial witness pool: one worker, two submitted jobs. -/
def c9PoolInit : PoolState := initPool 1 c9Jobs

/-- The witness pool after the single worker popped the first id. -/
def c9PoolMid : PoolState :=
  { svc := { c9PoolInit.svc with job_queue := ["b"] }
    workers := c9PoolInit.workers.set 0 (WorkerPh.picked "a") }

/-- The witness pool after the worker entered the executor and blocked:
one job running, one job queued, nothing can move. -/
def c9PoolFinal : PoolState :=
  { svc := setRunningState c9PoolMid.svc "a" 5
    workers := c9PoolMid.workers.set 0 (WorkerPh.blocked "a") }

/-! General lemmas about the store operations. -/

set_option maxRecDepth 10000

theorem dictGet_dictSet {α : Type} (d : List (String × α)) (k k2 : String)
    (v : α) :
    dictGet (dictSet d k v) k2 = if k = k2 then some v else dictGet d k2 := by
  induction d with
  | nil => by_cases h : k = k2 <;> simp [dictGet, dictSet, h]
  | cons kv rest ih =>
    obtain ⟨k3, v3⟩ := kv
    by_cases h3 : k3 = k
    · subst h3
      by_cases h2 : k3 = k2 <;> simp [dictGet, dictSet, h2]
    · by_cases h2 : k3 = k2
      · subst h2
        have : ¬ k = k3 := fun h => h3 h.symm
        simp [dictGet, dictSet, h3, this]
      · simp [dictGet, dictSet, h3, h2, ih]

theorem dictGet_mapUpdate (l : List (String × TrainingJob)) (id id2 : String)
    (f : TrainingJob → TrainingJob) :
    dictGet (l.map (fun kv => if kv.1 = id then (kv.1, f kv.2) else kv)) id2 =
      if id = id2 then (dictGet l id2).map f else dictGet l id2 := by
  induction l with
  | nil => by_cases h : id = id2 <;> simp [dictGet, h]
  | cons kv rest ih =>
    obtain ⟨k3, v3⟩ := kv
    rw [List.map_cons]
    have hmap : (if (k3, v3).1 = id then ((k3, v3).1, f (k3, v3).2)
        else (k3, v3)) = if k3 = id then (k3, f v3) else (k3, v3) := rfl
    rw [hmap]
    by_cases h3 : k3 = id
    · subst h3
      rw [if_pos rfl]
      by_cases h2 : k3 = id2
      · subst h2
        simp [dictGet, ih]
      · simp [dictGet, h2, ih]
    · rw [if_neg h3]
      by_cases h2 : k3 = id2
      · subst h2
        have hne : ¬ id = k3 := fun h => h3 h.symm
        simp [dictGet, hne]
      · simp [dictGet, h2, ih]

theorem dictGet_updateJob (s : TrainingService) (id id2 : String)
    (f : TrainingJob → TrainingJob) :
    dictGet (updateJob s id f).training_jobs id2 =
      if id = id2 then (dictGet s.training_jobs id2).map f
      else dictGet s.training_jobs id2 := by
  simp [updateJob, dictGet_mapUpdate]

theorem updateJob_queue (s : TrainingService) (id : String)
    (f : TrainingJob → TrainingJob) :
    (updateJob s id f).job_queue = s.job_queue := rfl

theorem keys_updateJob (s : TrainingService) (id : String)
    (f : TrainingJob → TrainingJob) :
    (updateJob s id f).training_jobs.map Prod.fst =
      s.training_jobs.map Prod.fst := by
  simp only [updateJob, List.map_map]
  apply List.map_congr_left
  intro kv _
  by_cases h : kv.1 = id <;> simp [h]

theorem foldl_updateJob (g : Nat → TrainingJob → TrainingJob) (id : String) :
    ∀ (l : List Nat) (s : TrainingService),
    dictGet ((l.foldl (fun s2 k => updateJob s2 id (g k)) s)).training_jobs
        id =
      (dictGet s.training_jobs id).map
        (fun j => l.foldl (fun j2 k => g k j2) j) := by
  intro l
  induction l with
  | nil => intro s; simp
  | cons k rest ih =>
    intro s
    simp only [List.foldl_cons, ih, dictGet_updateJob, if_pos rfl]
    cases dictGet s.training_jobs id <;> simp

theorem dictGet_setRunningState (s : TrainingService) (id id2 : String)
    (now : Nat) :
    dictGet (setRunningState s id now).training_jobs id2 =
      if id = id2 then
        (dictGet s.training_jobs id2).map
          (fun j => { j with status := "running", started_at := now })
      else dictGet s.training_jobs id2 := by
  simp [setRunningState, dictGet_updateJob]

theorem dictGet_finishState (pyHash : String → Int) (s : TrainingService)
    (id id2 : String) (now : Nat) :
    dictGet (finishState pyHash s id now).training_jobs id2 =
      if id = id2 then
        (dictGet s.training_jobs id2).map (fun j =>
          { j with status := "completed"
                   completed_at := some now
                   progress := 100
                   model_path :=
                     some ("models/" ++ j.model_name ++ "_" ++ id)
                   metrics_attr := some (finalMetricsFor pyHash id) })
      else dictGet s.training_jobs id2 := by
  simp [finishState, dictGet_updateJob]

theorem dictGet_execExcept (s : TrainingService) (id id2 err : String)
    (now : Nat) :
    dictGet (execExcept s id err now).training_jobs id2 =
      if id = id2 then
        (dictGet s.training_jobs id2).map (fun j =>
          { j with status := "failed"
                   error_message := some err
                   completed_at := some now })
      else dictGet s.training_jobs id2 := by
  simp [execExcept, dictGet_updateJob]

theorem simulateStepBody_status (k : Nat) (j : TrainingJob) :
    (simulateStepBody k j).status = j.status := by
  unfold simulateStepBody
  split <;> rfl

theorem simulateStepBody_progress (k : Nat) (j : TrainingJob) :
    (simulateStepBody k j).progress = (k : Int) + 1 := by
  have h : (((k : Rat) + 1) / (totalSteps : Rat)) * 100 =
      (((k : Int) + 1 : Int) : Rat) := by
    have h100 : (totalSteps : Rat) = 100 := by norm_num [totalSteps]
    rw [h100, div_mul_cancel₀]
    · push_cast
      ring
    · norm_num
  unfold simulateStepBody
  split <;> simp [h, Int.floor_intCast]

theorem cancel_fst_iff (s : TrainingService) (now : Nat) (id : String) :
    (s.cancel_training_job now id).1 = true ↔
      ∃ j, dictGet s.training_jobs id = some j ∧
        (j.status = "queued" ∨ j.status = "running") := by
  unfold TrainingService.cancel_training_job
  rcases h : dictGet s.training_jobs id with _ | j
  · simp [h]
  · by_cases hc : j.status = "queued" ∨ j.status = "running" <;> simp [h, hc]

theorem dictGet_cancel_snd (s : TrainingService) (now : Nat)
    (id id2 : String) :
    dictGet ((s.cancel_training_job now id).2).training_jobs id2 =
      if (s.cancel_training_job now id).1 = true ∧ id = id2 then
        (dictGet s.training_jobs id2).map
          (fun j => { j with status := "cancelled", completed_at := some now })
      else dictGet s.training_jobs id2 := by
  unfold TrainingService.cancel_training_job
  rcases h : dictGet s.training_jobs id with _ | j
  · simp [h]
  · by_cases hc : j.status = "queued" ∨ j.status = "running"
    · simp only [h, hc, if_true, if_pos]
      by_cases h2 : id = id2 <;> simp [dictGet_updateJob, h2]
    · simp [h, hc]

theorem cancel_progress (s : TrainingService) (now : Nat) (id id2 : String) :
    jobProgress ((s.cancel_training_job now id).2) id2 = jobProgress s id2 := by
  unfold jobProgress
  rw [dictGet_cancel_snd]
  split
  · cases dictGet s.training_jobs id2 <;> simp
  · rfl

theorem cancel_noop_of_inactive (s : TrainingService) (now : Nat)
    (id : String) (j : TrainingJob)
    (hj : dictGet s.training_jobs id = some j)
    (hs : ¬ (j.status = "queued" ∨ j.status = "running")) :
    s.cancel_training_job now id = (false, s) := by
  unfold TrainingService.cancel_training_job
  simp [hj, hs]

theorem trainingWorkerIteration_cons (pyHash : String → Int)
    (s : TrainingService) (id : String) (rest : List String)
    (now now2 : Nat) (hq : s.job_queue = id :: rest) :
    trainingWorkerIteration pyHash s now now2 =
      if (dictGet s.training_jobs id).isSome then
        executeTrainingJob pyHash { s with job_queue := rest } id now now2
      else { s with job_queue := rest } := by
  unfold trainingWorkerIteration
  rw [hq]

theorem executeTrainingJob_some (pyHash : String → Int)
    (s : TrainingService) (id : String) (now now2 : Nat) (j : TrainingJob)
    (hj : dictGet s.training_jobs id = some j) :
    executeTrainingJob pyHash s id now now2 =
      finishState pyHash (simulateTraining (setRunningState s id now) id) id
        now2 := by
  unfold executeTrainingJob
  rw [hj]

/-! Theorems settling the claims. -/

/-- C4 (code bug evidence): the list endpoint of the training controller
calls `list_training_jobs` with the keyword arguments `status`, `limit`
and `offset`, but the service function only has parameters `limit` and
`status`; the call cannot bind and raises `TypeError`, so the claimed
offset-based paging does not exist in the service. -/
theorem C4_code_evidence :
    pythonKwargsBind listTrainingJobsParams controllerListCallKwargs =
      false := by decide

/-- C3 (code bug evidence): running a submitted job to normal completion
and reading it back through `get_training_job` yields status `completed`,
`progress = 100` and a populated `model_path`, but an empty
`final_metrics` — the completion block wrote the metric dict to the stray
attribute `job.metrics` instead.  The claim that `finalMetrics` is
non-empty after completion fails on every completed job. -/
theorem C3_code_evidence :
    ((c3Final.get_training_job scenarioJobId).map
      (fun j => (j.status, j.progress, j.final_metrics.isEmpty, j.model_path,
                 (j.metrics_attr.getD []).isEmpty))) =
      some ("completed", 100, true, some "models/fraud_model_job-1",
        false) := by decide

/-- C1 (counterexample): cancelling the queued job succeeds and leaves it
`cancelled`, but when a worker then dequeues its id the job is executed
anyway and ends `completed` — the status of a cancelled job does change
again, refuting the claim on this concrete input. -/
theorem C1_counterexample :
    c1CancelResult.1 = true ∧
    jobStatus c1AfterCancel scenarioJobId = some "cancelled" ∧
    jobStatus c1AfterWorker scenarioJobId = some "completed" := by decide

/-- C1 (amended): a worker skips a dequeued id only when it is absent from
the store.  A job cancelled while queued is still stored, so the worker
executes it: the prologue flips it to `running` and the completion block
to `completed` — the `cancelled` status is not immutable. -/
theorem C1_amended_thm (pyHash : String → Int) (s : TrainingService)
    (id : String) (rest : List String) (j : TrainingJob) (now1 now2 : Nat)
    (hq : s.job_queue = id :: rest)
    (hj : dictGet s.training_jobs id = some j)
    (_hc : j.status = "cancelled") :
    (∃ j1, dictGet (setRunningState s id now1).training_jobs id = some j1 ∧
      j1.status = "running") ∧
    (∃ j2, dictGet (trainingWorkerIteration pyHash s now1 now2).training_jobs
        id = some j2 ∧ j2.status = "completed" ∧ j2.progress = 100) := by
  constructor
  · rw [dictGet_setRunningState, if_pos rfl, hj, Option.map_some']
    exact ⟨_, rfl, rfl⟩
  · have hj2 : dictGet ({ s with job_queue := rest } :
        TrainingService).training_jobs id = some j := hj
    rw [trainingWorkerIteration_cons pyHash s id rest now1 now2 hq, hj,
      Option.isSome_some, if_pos rfl,
      executeTrainingJob_some pyHash _ id now1 now2 j hj2,
      dictGet_finishState, if_pos rfl, simulateTraining, foldl_updateJob,
      dictGet_setRunningState, if_pos rfl, hj2, Option.map_some',
      Option.map_some', Option.map_some']
    exact ⟨_, rfl, rfl, rfl⟩

/-- C1 (witness): the amended theorem applied to the concrete
cancelled-while-queued scenario. -/
theorem C1_witness :
    ∃ j2, dictGet (trainingWorkerIteration pyHash0 c1AfterCancel 2
        3).training_jobs scenarioJobId = some j2 ∧
      j2.status = "completed" ∧ j2.progress = 100 := by
  have hq : c1AfterCancel.job_queue = scenarioJobId :: [] := by decide
  have hst : (dictGet c1AfterCancel.training_jobs scenarioJobId).map
      TrainingJob.status = some "cancelled" := by decide
  rcases hj : dictGet c1AfterCancel.training_jobs scenarioJobId with _ | j
  · rw [hj] at hst; exact absurd hst (by simp)
  · rw [hj, Option.map_some', Option.some_inj] at hst
    exact (C1_amended_thm pyHash0 c1AfterCancel scenarioJobId [] j 2 3 hq hj
      hst).2

/-- C2 (counterexample): the job is cancelled externally after five loop
iterations (status becomes `cancelled`), but the executor finishes the
loop and its completion block overwrites the status with `completed`,
refuting the claim on this concrete input. -/
theorem C2_counterexample :
    c2CancelResult.1 = true ∧
    jobStatus c2AfterCancel scenarioJobId = some "cancelled" ∧
    jobStatus c2Final scenarioJobId = some "completed" := by decide

/-- C2 (amended): the executor never reads the status inside the training
loop (each iteration leaves it unchanged, performing no cancellation
check), and both terminal writes are unconditional: the completion block
sets `completed` and the exception handler sets `failed` whatever the
current status is — including `cancelled`. -/
theorem C2_amended_thm (pyHash : String → Int) (s : TrainingService)
    (id err : String) (j : TrainingJob) (k : Nat) (now : Nat)
    (hj : dictGet s.training_jobs id = some j) :
    jobStatus (updateJob s id (simulateStepBody k)) id = some j.status ∧
    jobStatus (finishState pyHash s id now) id = some "completed" ∧
    jobStatus (execExcept s id err now) id = some "failed" := by
  refine ⟨?_, ?_, ?_⟩ <;>
    simp [jobStatus, dictGet_updateJob, dictGet_finishState,
      dictGet_execExcept, hj, simulateStepBody_status]

/-- C2 (witness): the amended theorem applied to the concrete state where
a running job has just been cancelled externally. -/
theorem C2_witness :
    jobStatus (updateJob c2AfterCancel scenarioJobId (simulateStepBody 5))
        scenarioJobId = some "cancelled" ∧
    jobStatus (finishState pyHash0 c2AfterCancel scenarioJobId 3)
        scenarioJobId = some "completed" ∧
    jobStatus (execExcept c2AfterCancel scenarioJobId "boom" 3)
        scenarioJobId = some "failed" := by
  have hst : (dictGet c2AfterCancel.training_jobs scenarioJobId).map
      TrainingJob.status = some "cancelled" := by decide
  rcases hj : dictGet c2AfterCancel.training_jobs scenarioJobId with _ | j
  · rw [hj] at hst; exact absurd hst (by simp)
  · rw [hj, Option.map_some', Option.some_inj] at hst
    have h := C2_amended_thm pyHash0 c2AfterCancel scenarioJobId "boom" j 5
      3 hj
    rw [hst] at h
    exact h

/-- C6 (counterexample): after the mid-run cancellation the status is
terminal (`cancelled`) with progress 5, yet the executor's next loop
iteration advances progress to 6 — progress is not frozen once the status
is terminal, refuting the claim on this concrete input. -/
theorem C6_counterexample :
    (jobStatus c2AfterCancel scenarioJobId = some "cancelled" ∧
      jobProgress c2AfterCancel scenarioJobId = 5) ∧
    (jobStatus c6NextStep scenarioJobId = some "cancelled" ∧
      jobProgress c6NextStep scenarioJobId = 6) := by
  with_unfolding_all decide

/-- C5: `Cancel` returns true exactly when the job exists with status
`queued` or `running`; on success it writes `cancelled` and
`completed_at = now`, and a second call on the same id returns false. -/
theorem C5_cancel_thm (s : TrainingService) (id : String) (t1 t2 : Nat) :
    ((s.cancel_training_job t1 id).1 = true ↔
      ∃ j, dictGet s.training_jobs id = some j ∧
        (j.status = "queued" ∨ j.status = "running")) ∧
    ((s.cancel_training_job t1 id).1 = true →
      ∃ j2, dictGet ((s.cancel_training_job t1 id).2).training_jobs id =
          some j2 ∧ j2.status = "cancelled" ∧ j2.completed_at = some t1) ∧
    ((s.cancel_training_job t1 id).1 = true →
      (((s.cancel_training_job t1 id).2).cancel_training_job t2 id).1 =
        false) := by
  refine ⟨cancel_fst_iff s t1 id, ?_, ?_⟩
  · intro h
    obtain ⟨j, hj, _⟩ := (cancel_fst_iff s t1 id).mp h
    rw [dictGet_cancel_snd, if_pos ⟨h, rfl⟩, hj, Option.map_some']
    exact ⟨_, rfl, rfl, rfl⟩
  · intro h
    cases hb : (((s.cancel_training_job t1 id).2).cancel_training_job t2
        id).1
    · rfl
    · exfalso
      obtain ⟨j3, hj3, hs3⟩ :=
        (cancel_fst_iff ((s.cancel_training_job t1 id).2) t2 id).mp hb
      obtain ⟨j, hj, _⟩ := (cancel_fst_iff s t1 id).mp h
      rw [dictGet_cancel_snd, if_pos ⟨h, rfl⟩, hj, Option.map_some',
        Option.some_inj] at hj3
      rw [← hj3] at hs3
      simp at hs3

/-- C5 (witness): cancelling the freshly queued concrete job returns true,
and cancelling it again returns false. -/
theorem C5_witness :
    (scenarioSubmitted.cancel_training_job 1 scenarioJobId).1 = true ∧
    (((scenarioSubmitted.cancel_training_job 1
        scenarioJobId).2).cancel_training_job 4 scenarioJobId).1 = false := by
  have h1 : (scenarioSubmitted.cancel_training_job 1 scenarioJobId).1 =
      true := by decide
  exact ⟨h1, (C5_cancel_thm scenarioSubmitted scenarioJobId 1 4).2.2 h1⟩

/-- C7: `start_training` stores a record with status `queued` and progress
0, appends the id to the job queue, and returns the job; reading the job
back immediately shows `queued` with progress 0. -/
theorem C7_submit_thm (s : TrainingService) (id : String)
    (cfg : TrainingConfig) (now : Nat) :
    (((s.start_training now id cfg).1).get_training_job id).map
        (fun j => (j.status, j.progress)) = some ("queued", 0) ∧
    ((s.start_training now id cfg).1).job_queue = s.job_queue ++ [id] ∧
    ((s.start_training now id cfg).2).status = "queued" ∧
    ((s.start_training now id cfg).2).progress = 0 := by
  refine ⟨?_, rfl, rfl, rfl⟩
  simp [TrainingService.start_training, TrainingService.get_training_job,
    dictGet_dictSet, TrainingJob.make]

theorem bumpCount_fold (jobs : List (String × TrainingJob)) (st : String) :
    ∀ acc : List (String × Nat),
    (dictGet (jobs.foldl (fun a kv => bumpCount a kv.2.status) acc)
        st).getD 0 =
      (dictGet acc st).getD 0 +
        jobs.countP (fun kv => kv.2.status == st) := by
  induction jobs with
  | nil => intro acc; simp
  | cons kv rest ih =>
    intro acc
    rw [List.foldl_cons, List.countP_cons, ih]
    have hb : (dictGet (bumpCount acc kv.2.status) st).getD 0 =
        (dictGet acc st).getD 0 +
          (if kv.2.status == st then 1 else 0) := by
      unfold bumpCount
      rw [dictGet_dictSet]
      by_cases h : kv.2.status = st
      · simp [h]
      · simp [h]
    rw [hb]
    ring

/-- C8: the success rate returned by `get_training_statistics` is 0 when
no job has finished, and `completed / (completed + failed)` otherwise;
jobs with status `queued`, `running` or `cancelled` never enter the
denominator, which counts exactly the `completed` and `failed` jobs. -/
theorem C8_stats_thm (s : TrainingService) (now : Nat) :
    (statusCount s "completed" + statusCount s "failed" = 0 →
      (s.get_training_statistics now).success_rate = 0) ∧
    (0 < statusCount s "completed" + statusCount s "failed" →
      (s.get_training_statistics now).success_rate =
        (statusCount s "completed" : Rat) /
          ((statusCount s "completed" : Rat) +
            (statusCount s "failed" : Rat))) := by
  have hc : (dictGet (s.training_jobs.foldl
      (fun a kv => bumpCount a kv.2.status) []) "completed").getD 0 =
      statusCount s "completed" := by
    rw [bumpCount_fold]; simp [statusCount, dictGet]
  have hf : (dictGet (s.training_jobs.foldl
      (fun a kv => bumpCount a kv.2.status) []) "failed").getD 0 =
      statusCount s "failed" := by
    rw [bumpCount_fold]; simp [statusCount, dictGet]
  constructor
  · intro h
    simp only [TrainingService.get_training_statistics, hc, hf, h]
    norm_num
  · intro h
    simp only [TrainingService.get_training_statistics, hc, hf]
    rw [if_pos h]

/-- C8 (witness): the success rate is 0 for the empty store, and 1 for the
concrete store holding one completed job and nothing else. -/
theorem C8_witness :
    ((TrainingService.make []).get_training_statistics 0).success_rate =
      0 ∧
    (c3Final.get_training_statistics 9).success_rate = 1 := by
  constructor
  · exact (C8_stats_thm (TrainingService.make []) 0).1 (by decide)
  · have h := (C8_stats_thm c3Final 9).2 (by decide)
    rw [h]
    have h1 : statusCount c3Final "completed" = 1 := by decide
    have h0 : statusCount c3Final "failed" = 0 := by decide
    rw [h1, h0]
    norm_num
theorem inv_imp_boundsP (id : String) (k : Nat) (s : TrainingService)
    (hk : k ≤ totalSteps)
    (hinv : ∀ j, dictGet s.training_jobs id = some j →
      0 ≤ j.progress ∧ j.progress ≤ (k : Int) ∧
      (j.status = "queued" ∨ j.status = "running" ∨
        j.status = "cancelled")) :
    ∀ j2, dictGet s.training_jobs id = some j2 →
      0 ≤ j2.progress ∧ j2.progress ≤ 100 ∧
      (j2.status = "completed" → j2.progress = 100) := by
  intro j2 h2
  obtain ⟨h0, hk2, hst⟩ := hinv j2 h2
  refine ⟨h0, ?_, ?_⟩
  · calc j2.progress ≤ (k : Int) := hk2
      _ ≤ ((totalSteps : Nat) : Int) := by exact_mod_cast hk
      _ = 100 := by norm_num [totalSteps]
  · intro hcomp
    rcases hst with h | h | h <;> rw [hcomp] at h <;> simp at h

theorem scanl_ne_nil (f : TrainingService → JobOp → TrainingService)
    (s : TrainingService) (l : List JobOp) :
    ∃ t, List.scanl f s l = s :: t := by
  cases l <;> simp [List.scanl]

theorem cancels_noop (pyHash : String → Int) (now : Nat) (id : String) :
    ∀ (rest : List JobOp) (s : TrainingService), OnlyCancels rest →
    (∀ j, dictGet s.training_jobs id = some j → j.status = "completed") →
    List.Chain' (fun a b => jobProgress a id ≤ jobProgress b id)
        (List.scanl (applyJobOp pyHash now id) s rest) ∧
    (∀ s2 ∈ List.scanl (applyJobOp pyHash now id) s rest, s2 = s) := by
  intro rest
  induction rest with
  | nil => intro s _ _; simp
  | cons op rest2 ih =>
    intro s hoc hst
    have hop : op = JobOp.cancelOp := hoc op (by simp)
    subst hop
    have hnoop : applyJobOp pyHash now id s JobOp.cancelOp = s := by
      show (s.cancel_training_job now id).2 = s
      rcases hj : dictGet s.training_jobs id with _ | j
      · unfold TrainingService.cancel_training_job
        rw [hj]
      · rw [cancel_noop_of_inactive s now id j hj (by rw [hst j hj]; simp)]
    rw [List.scanl_cons, hnoop]
    obtain ⟨hchain, hmem⟩ :=
      ih s (fun op2 h2 => hoc op2 (List.mem_cons_of_mem _ h2)) hst
    obtain ⟨t, ht⟩ := scanl_ne_nil (applyJobOp pyHash now id) s rest2
    constructor
    · rw [ht]
      rw [ht] at hchain
      exact List.chain'_cons.mpr ⟨le_refl _, hchain⟩
    · intro s2 h2
      rcases List.mem_cons.mp h2 with h2 | h2
      · exact h2
      · exact hmem s2 h2

theorem opsFrom_inv (pyHash : String → Int) (now : Nat) (id : String)
    {k : Nat} {ops : List JobOp} (hops : OpsFrom k ops) :
    ∀ s : TrainingService, k ≤ totalSteps →
    (∀ j, dictGet s.training_jobs id = some j →
      0 ≤ j.progress ∧ j.progress ≤ (k : Int) ∧
      (j.status = "queued" ∨ j.status = "running" ∨
        j.status = "cancelled")) →
    List.Chain' (fun a b => jobProgress a id ≤ jobProgress b id)
        (List.scanl (applyJobOp pyHash now id) s ops) ∧
    (∀ s2 ∈ List.scanl (applyJobOp pyHash now id) s ops,
      ∀ j2, dictGet s2.training_jobs id = some j2 →
        0 ≤ j2.progress ∧ j2.progress ≤ 100 ∧
        (j2.status = "completed" → j2.progress = 100)) := by
  induction hops with
  | nil k =>
    intro s hk hinv
    refine ⟨by simp [List.scanl], ?_⟩
    intro s2 h2
    have h2b : s2 = s := by simpa [List.scanl] using h2
    subst h2b
    exact inv_imp_boundsP id k _ hk hinv
  | cancel k rest h ih =>
    intro s hk hinv
    have hinv2 : ∀ j, dictGet (applyJobOp pyHash now id s
        JobOp.cancelOp).training_jobs id = some j →
        0 ≤ j.progress ∧ j.progress ≤ (k : Int) ∧
        (j.status = "queued" ∨ j.status = "running" ∨
          j.status = "cancelled") := by
      intro j2 hj2
      replace hj2 : dictGet ((s.cancel_training_job now
        id).2).training_jobs id = some j2 := hj2
      rw [dictGet_cancel_snd] at hj2
      split at hj2
      · obtain ⟨j, hj, hj2eq⟩ := Option.map_eq_some'.mp hj2
        obtain ⟨h0, hkk, _⟩ := hinv j hj
        rw [← hj2eq]
        exact ⟨h0, hkk, Or.inr (Or.inr rfl)⟩
      · exact hinv j2 hj2
    obtain ⟨hchain, hmem⟩ := ih (applyJobOp pyHash now id s JobOp.cancelOp)
      hk hinv2
    rw [List.scanl_cons]
    obtain ⟨t, ht⟩ := scanl_ne_nil (applyJobOp pyHash now id)
      (applyJobOp pyHash now id s JobOp.cancelOp) rest
    constructor
    · rw [ht]
      rw [ht] at hchain
      refine List.chain'_cons.mpr ⟨?_, hchain⟩
      show jobProgress s id ≤
        jobProgress (applyJobOp pyHash now id s JobOp.cancelOp) id
      have heq : jobProgress (applyJobOp pyHash now id s JobOp.cancelOp)
          id = jobProgress s id := cancel_progress s now id id
      rw [heq]
    · intro s2 h2
      rcases List.mem_cons.mp h2 with h2 | h2
      · subst h2
        exact inv_imp_boundsP id k s2 hk hinv
      · exact hmem s2 h2
  | step k rest hk2 h ih =>
    intro s hk hinv
    have hinv2 : ∀ j, dictGet (applyJobOp pyHash now id s
        (JobOp.loopStep k)).training_jobs id = some j →
        0 ≤ j.progress ∧ j.progress ≤ ((k + 1 : Nat) : Int) ∧
        (j.status = "queued" ∨ j.status = "running" ∨
          j.status = "cancelled") := by
      intro j2 hj2
      replace hj2 : dictGet (updateJob s id
        (simulateStepBody k)).training_jobs id = some j2 := hj2
      rw [dictGet_updateJob, if_pos rfl] at hj2
      obtain ⟨j, hj, hj2eq⟩ := Option.map_eq_some'.mp hj2
      obtain ⟨h0, hkk, hss⟩ := hinv j hj
      rw [← hj2eq]
      rw [simulateStepBody_progress]
      refine ⟨by positivity, by push_cast; linarith, ?_⟩
      rw [simulateStepBody_status]
      exact hss
    obtain ⟨hchain, hmem⟩ := ih (applyJobOp pyHash now id s
      (JobOp.loopStep k)) hk2 hinv2
    rw [List.scanl_cons]
    obtain ⟨t, ht⟩ := scanl_ne_nil (applyJobOp pyHash now id)
      (applyJobOp pyHash now id s (JobOp.loopStep k)) rest
    constructor
    · rw [ht]
      rw [ht] at hchain
      refine List.chain'_cons.mpr ⟨?_, hchain⟩
      show jobProgress s id ≤ jobProgress
        (updateJob s id (simulateStepBody k)) id
      rw [jobProgress, jobProgress, dictGet_updateJob, if_pos rfl]
      rcases hj : dictGet s.training_jobs id with _ | j
      · simp
      · obtain ⟨h0, hkk, _⟩ := hinv j hj
        simp only [Option.map_some', Option.getD_some,
          simulateStepBody_progress]
        calc j.progress ≤ (k : Int) := hkk
          _ ≤ (k : Int) + 1 := by linarith
    · intro s2 h2
      rcases List.mem_cons.mp h2 with h2 | h2
      · subst h2
        exact inv_imp_boundsP id k s2 hk hinv
      · exact hmem s2 h2
  | fin rest hoc =>
    intro s hk hinv
    have hst2 : ∀ j, dictGet (applyJobOp pyHash now id s
        JobOp.finishOp).training_jobs id = some j →
        j.status = "completed" := by
      intro j2 hj2
      replace hj2 : dictGet (finishState pyHash s id now).training_jobs
        id = some j2 := hj2
      rw [dictGet_finishState, if_pos rfl] at hj2
      obtain ⟨j, _, hj2eq⟩ := Option.map_eq_some'.mp hj2
      rw [← hj2eq]
    obtain ⟨hchain, hmem⟩ := cancels_noop pyHash now id rest
      (applyJobOp pyHash now id s JobOp.finishOp) hoc hst2
    rw [List.scanl_cons]
    obtain ⟨t, ht⟩ := scanl_ne_nil (applyJobOp pyHash now id)
      (applyJobOp pyHash now id s JobOp.finishOp) rest
    constructor
    · rw [ht]
      rw [ht] at hchain
      refine List.chain'_cons.mpr ⟨?_, hchain⟩
      show jobProgress s id ≤ jobProgress
        (finishState pyHash s id now) id
      rw [jobProgress, jobProgress, dictGet_finishState, if_pos rfl]
      rcases hj : dictGet s.training_jobs id with _ | j
      · simp
      · obtain ⟨h0, hkk, _⟩ := hinv j hj
        simp only [Option.map_some', Option.getD_some]
        calc j.progress ≤ ((totalSteps : Nat) : Int) := hkk
          _ = 100 := by norm_num [totalSteps]
    · intro s2 h2
      rcases List.mem_cons.mp h2 with h2 | h2
      · subst h2
        exact inv_imp_boundsP id totalSteps s2 hk hinv
      · intro j2 hj2
        rw [hmem s2 h2] at hj2
        replace hj2 : dictGet (finishState pyHash s id now).training_jobs
          id = some j2 := hj2
        rw [dictGet_finishState, if_pos rfl] at hj2
        obtain ⟨j, _, hj2eq⟩ := Option.map_eq_some'.mp hj2
        rw [← hj2eq]
        refine ⟨by norm_num, by norm_num, fun _ => rfl⟩

/-- C6 (amended): along any executor trace for one job — the `running`
write, then the loop iterations in program order, then the completion
block, with external cancellation requests interleaved anywhere, or any
prefix thereof — the job's progress stays an integer between 0 and 100 and
is monotonically non-decreasing, and every state whose status is
`completed` has progress 100.  The claim's remaining parts are false:
progress is not frozen once the status is terminal, and the
100-iff-completed equivalence fails, as the counterexample shows. -/
theorem C6_amended_thm (pyHash : String → Int) (now : Nat) (id : String)
    (ops : List JobOp) (s : TrainingService) (j : TrainingJob)
    (hops : OpsFrom 0 ops)
    (hj : dictGet s.training_jobs id = some j)
    (hp : j.progress = 0) (hst : j.status = "queued") :
    List.Chain' (fun a b => jobProgress a id ≤ jobProgress b id)
      (List.scanl (applyJobOp pyHash now id) s (JobOp.setRun :: ops)) ∧
    (∀ s2 ∈ List.scanl (applyJobOp pyHash now id) s
        (JobOp.setRun :: ops),
      ∀ j2, dictGet s2.training_jobs id = some j2 →
        0 ≤ j2.progress ∧ j2.progress ≤ 100 ∧
        (j2.status = "completed" → j2.progress = 100)) := by
  have hinv2 : ∀ j2, dictGet (applyJobOp pyHash now id s
      JobOp.setRun).training_jobs id = some j2 →
      0 ≤ j2.progress ∧ j2.progress ≤ ((0 : Nat) : Int) ∧
      (j2.status = "queued" ∨ j2.status = "running" ∨
        j2.status = "cancelled") := by
    intro j2 hj2
    replace hj2 : dictGet (setRunningState s id now).training_jobs id =
      some j2 := hj2
    rw [dictGet_setRunningState, if_pos rfl, hj, Option.map_some',
      Option.some_inj] at hj2
    rw [← hj2]
    simp [hp]
  obtain ⟨hchain, hmem⟩ := opsFrom_inv pyHash now id hops
    (applyJobOp pyHash now id s JobOp.setRun) (by norm_num [totalSteps])
    hinv2
  rw [List.scanl_cons]
  obtain ⟨t, ht⟩ := scanl_ne_nil (applyJobOp pyHash now id)
    (applyJobOp pyHash now id s JobOp.setRun) ops
  constructor
  · rw [ht]
    rw [ht] at hchain
    refine List.chain'_cons.mpr ⟨?_, hchain⟩
    show jobProgress s id ≤ jobProgress (setRunningState s id now) id
    rw [jobProgress, jobProgress, dictGet_setRunningState, if_pos rfl, hj,
      Option.map_some']
    simp
  · intro s2 h2
    rcases List.mem_cons.mp h2 with h2 | h2
    · subst h2
      intro j2 hj2
      rw [hj] at hj2
      obtain rfl := Option.some_inj.mp hj2
      simp [← hj2, hp, hst]
    · exact hmem s2 h2

/-- C6 (witness): the amended theorem applied to the concrete submitted
job, with the trace consisting of the `running` write followed by one
cancellation request. -/
theorem C6_witness :
    List.Chain' (fun a b =>
        jobProgress a scenarioJobId ≤ jobProgress b scenarioJobId)
      (List.scanl (applyJobOp pyHash0 7 scenarioJobId) scenarioSubmitted
        [JobOp.setRun, JobOp.cancelOp]) ∧
    (∀ s2 ∈ List.scanl (applyJobOp pyHash0 7 scenarioJobId)
        scenarioSubmitted [JobOp.setRun, JobOp.cancelOp],
      ∀ j2, dictGet s2.training_jobs scenarioJobId = some j2 →
        0 ≤ j2.progress ∧ j2.progress ≤ 100 ∧
        (j2.status = "completed" → j2.progress = 100)) := by
  have hops : OpsFrom 0 [JobOp.cancelOp] :=
    OpsFrom.cancel 0 [] (OpsFrom.nil 0)
  have hpr : (dictGet scenarioSubmitted.training_jobs
      scenarioJobId).map TrainingJob.progress = some 0 := by decide
  have hst : (dictGet scenarioSubmitted.training_jobs
      scenarioJobId).map TrainingJob.status = some "queued" := by decide
  rcases hj : dictGet scenarioSubmitted.training_jobs scenarioJobId
    with _ | j
  · rw [hj] at hst
    exact absurd hst (by simp)
  · rw [hj, Option.map_some', Option.some_inj] at hpr hst
    exact C6_amended_thm pyHash0 7 scenarioJobId [JobOp.cancelOp]
      scenarioSubmitted j hops hj hpr hst

set_option maxHeartbeats 3000000 in
/-- C10: serializing a `TrainingJob` with `to_dict` and rebuilding it with
`from_dict` succeeds, and the rebuilt job has every serialized field equal
to the original: serializing the reconstruction yields the identical
dict. -/
theorem C10_roundtrip_thm (j : TrainingJob) (now : Nat) :
    (TrainingJob.from_dict now j.to_dict).map TrainingJob.to_dict =
      some j.to_dict := by
  obtain ⟨jid, mn, alg, cfg, st, sa, ca, cb, jt, pr, cm, fm, mp, em, ts,
    mt, ec, ma⟩ := j
  rcases ca with _ | ca <;> rcases mp with _ | mp <;>
    rcases em with _ | em <;> rcases ts with _ | ts <;>
    rcases mt with _ | mt <;> rcases ec with _ | ec <;> rfl

/-! Lemmas for the worker-pool capacity claim. -/

theorem get_perm_cons {α : Type} :
    ∀ (l : List α) (i : Nat) (y : α), l.get? i = some y →
      List.Perm l (y :: l.eraseIdx i) := by
  intro l
  induction l with
  | nil => intro i y h; cases h
  | cons a t ih =>
    intro i y h
    cases i with
    | zero =>
      obtain rfl : a = y := Option.some_inj.mp h
      exact List.Perm.refl _
    | succ i =>
      have h2 : t.get? i = some y := h
      exact ((ih i y h2).cons a).trans (List.Perm.swap y a _)

theorem set_perm_cons {α : Type} :
    ∀ (l : List α) (i : Nat) (x y : α), l.get? i = some y →
      List.Perm (l.set i x) (x :: l.eraseIdx i) := by
  intro l
  induction l with
  | nil => intro i x y h; cases h
  | cons a t ih =>
    intro i x y h
    cases i with
    | zero => exact List.Perm.refl _
    | succ i =>
      have h2 : t.get? i = some y := h
      exact ((ih i x y h2).cons a).trans (List.Perm.swap x a _)

theorem countP_mapUpdate :
    ∀ (l : List (String × TrainingJob)) (id : String) (j : TrainingJob)
      (f : TrainingJob → TrainingJob) (q : String × TrainingJob → Bool),
    (l.map Prod.fst).Nodup → dictGet l id = some j →
    (l.map (fun kv => if kv.1 = id then (kv.1, f kv.2) else kv)).countP q
        + (if q (id, j) then 1 else 0) =
      l.countP q + (if q (id, f j) then 1 else 0) := by
  intro l
  induction l with
  | nil => intro id j f q _ h; cases h
  | cons kv rest ih =>
    intro id j f q hnd hget
    obtain ⟨k3, v3⟩ := kv
    rw [List.map_cons]
    have hmap : (if (k3, v3).1 = id then ((k3, v3).1, f (k3, v3).2)
        else (k3, v3)) = if k3 = id then (k3, f v3) else (k3, v3) := rfl
    rw [hmap]
    simp only [List.map_cons, List.nodup_cons] at hnd
    by_cases h3 : k3 = id
    · subst h3
      have hj : v3 = j := by
        have hv : dictGet ((k3, v3) :: rest) k3 = some v3 := by
          simp [dictGet]
        rw [hget] at hv
        exact (Option.some_inj.mp hv).symm
      subst hj
      rw [if_pos rfl, List.countP_cons, List.countP_cons]
      have hrest : rest.map
          (fun kv => if kv.1 = k3 then (kv.1, f kv.2) else kv) = rest := by
        conv_rhs => rw [← List.map_id rest]
        apply List.map_congr_left
        intro kv hkv
        have hne : kv.1 ≠ k3 := fun he =>
          hnd.1 (List.mem_map.mpr ⟨kv, hkv, he⟩)
        simp [hne]
      rw [hrest]
      ring
    · rw [if_neg h3, List.countP_cons, List.countP_cons]
      have hget2 : dictGet rest id = some j := by
        simpa [dictGet, h3] using hget
      have hrec := ih id j f q hnd.2 hget2
      omega

theorem dictGet_append {α : Type} :
    ∀ (l1 l2 : List (String × α)) (k : String),
    dictGet (l1 ++ l2) k =
      match dictGet l1 k with
      | some v => some v
      | none => dictGet l2 k := by
  intro l1
  induction l1 with
  | nil => intro l2 k; simp [dictGet]
  | cons kv rest ih =>
    intro l2 k
    obtain ⟨k2, v⟩ := kv
    by_cases h : k2 = k <;> simp [dictGet, h, ih]

theorem dictSet_absent {α : Type} :
    ∀ (d : List (String × α)) (k : String) (v : α),
    dictGet d k = none → dictSet d k v = d ++ [(k, v)] := by
  intro d
  induction d with
  | nil => intro k v _; rfl
  | cons kv rest ih =>
    intro k v h
    obtain ⟨k2, v2⟩ := kv
    by_cases h2 : k2 = k
    · simp [dictGet, h2] at h
    · have h3 : dictGet rest k = none := by simpa [dictGet, h2] using h
      simp [dictSet, h2, ih k v h3]

theorem submitAll_spec :
    ∀ (jobs : List (String × TrainingConfig)) (s : TrainingService),
    (jobs.map Prod.fst).Nodup →
    (∀ kc ∈ jobs, dictGet s.training_jobs kc.1 = none) →
    (submitAll s jobs).training_jobs =
      s.training_jobs ++ jobs.map (fun kc => (kc.1,
        TrainingJob.make 0 kc.1 kc.2.model_name kc.2.algorithm
          kc.2.to_dict "queued" (some 0) none "system" "training")) ∧
    (submitAll s jobs).job_queue = s.job_queue ++ jobs.map Prod.fst ∧
    (submitAll s jobs).running_jobs = s.running_jobs ∧
    (submitAll s jobs).max_concurrent_jobs = s.max_concurrent_jobs := by
  intro jobs
  induction jobs with
  | nil => intro s _ _; simp [submitAll]
  | cons kc rest ih =>
    intro s hnd habs
    simp only [List.map_cons, List.nodup_cons] at hnd
    have habs0 : dictGet s.training_jobs kc.1 = none :=
      habs kc (List.mem_cons_self kc rest)
    have hs2 : submitAll s (kc :: rest) =
        submitAll ((s.start_training 0 kc.1 kc.2).1) rest := rfl
    have hstore : ((s.start_training 0 kc.1 kc.2).1).training_jobs =
        s.training_jobs ++ [(kc.1, TrainingJob.make 0 kc.1
          kc.2.model_name kc.2.algorithm kc.2.to_dict "queued" (some 0)
          none "system" "training")] := by
      show dictSet s.training_jobs kc.1 _ = _
      rw [dictSet_absent _ _ _ habs0]
    have habs2 : ∀ kc2 ∈ rest,
        dictGet ((s.start_training 0 kc.1 kc.2).1).training_jobs kc2.1 =
          none := by
      intro kc2 h2
      rw [hstore, dictGet_append]
      have hg1 : dictGet s.training_jobs kc2.1 = none :=
        habs kc2 (List.mem_cons_of_mem kc h2)
      have hne : kc.1 ≠ kc2.1 := fun he =>
        hnd.1 (List.mem_map.mpr ⟨kc2, h2, he.symm⟩)
      rw [hg1]
      simp [dictGet, hne]
    obtain ⟨ht, hq, hr, hm⟩ := ih ((s.start_training 0 kc.1 kc.2).1)
      hnd.2 habs2
    rw [hs2]
    refine ⟨?_, ?_, ?_, ?_⟩
    · rw [ht, hstore, List.append_assoc]
      simp
    · rw [hq]
      show s.job_queue ++ [kc.1] ++ rest.map Prod.fst = _
      rw [List.append_assoc]
      simp
    · rw [hr]
      rfl
    · rw [hm]
      rfl

theorem heldIds_replicate_idle (n : Nat) :
    heldIds (List.replicate n WorkerPh.idle) = [] := by
  induction n with
  | zero => rfl
  | succ n ih =>
    simp only [List.replicate_succ, heldIds, List.filterMap_cons] at ih ⊢
    exact ih

theorem countP_replicate_idle (n : Nat) (q : WorkerPh → Bool)
    (h : q WorkerPh.idle = false) :
    (List.replicate n WorkerPh.idle).countP q = 0 := by
  rw [List.countP_eq_zero]
  intro a ha
  rw [List.eq_of_mem_replicate ha]
  simp [h]

theorem initStore_get (jobs : List (String × TrainingConfig))
    (id : String) :
    id ∈ jobs.map Prod.fst →
    ∃ j, dictGet (jobs.map (fun kc => (kc.1, TrainingJob.make 0 kc.1
        kc.2.model_name kc.2.algorithm kc.2.to_dict "queued" (some 0) none
        "system" "training"))) id = some j ∧ j.status = "queued" := by
  induction jobs with
  | nil => intro h; cases h
  | cons kc rest ih =>
    intro h
    by_cases he : kc.1 = id
    · exact ⟨TrainingJob.make 0 kc.1 kc.2.model_name kc.2.algorithm
        kc.2.to_dict "queued" (some 0) none "system" "training",
        by simp [dictGet, he], rfl⟩
    · have h2 : id ∈ rest.map Prod.fst := by
        rcases List.mem_cons.mp h with h3 | h3
        · exact absurd h3.symm he
        · exact h3
      obtain ⟨j, hj, hs⟩ := ih h2
      exact ⟨j, by simp [dictGet, he, hj], hs⟩

theorem initStore_statuses (jobs : List (String × TrainingConfig)) :
    ∀ kv ∈ jobs.map (fun kc => (kc.1, TrainingJob.make 0 kc.1
      kc.2.model_name kc.2.algorithm kc.2.to_dict "queued" (some 0) none
      "system" "training")), kv.2.status = "queued" := by
  intro kv hkv
  obtain ⟨kc, _, rfl⟩ := List.mem_map.mp hkv
  rfl

theorem initPool_inv (N : Nat) (jobs : List (String × TrainingConfig))
    (hnd : (jobs.map Prod.fst).Nodup) :
    PoolInv N jobs.length (initPool N jobs) := by
  obtain ⟨ht, hq, hr, hm⟩ := submitAll_spec jobs
    (TrainingService.make [("max_concurrent_jobs", N)]) hnd
    (fun kc _ => rfl)
  have ht2 : (initPool N jobs).svc.training_jobs =
      jobs.map (fun kc => (kc.1, TrainingJob.make 0 kc.1 kc.2.model_name
        kc.2.algorithm kc.2.to_dict "queued" (some 0) none "system"
        "training")) := by
    show (submitAll _ jobs).training_jobs = _
    rw [ht]
    rfl
  have hq2 : (initPool N jobs).svc.job_queue = jobs.map Prod.fst := by
    show (submitAll _ jobs).job_queue = _
    rw [hq]
    rfl
  have hkeys : (initPool N jobs).svc.training_jobs.map Prod.fst =
      jobs.map Prod.fst := by
    rw [ht2, List.map_map]
    rfl
  have hrun0 : statusCount (initPool N jobs).svc "running" = 0 := by
    show (initPool N jobs).svc.training_jobs.countP _ = 0
    rw [List.countP_eq_zero]
    intro kv hkv
    rw [ht2] at hkv
    have := initStore_statuses jobs kv hkv
    simp [this]
  have hqd : statusCount (initPool N jobs).svc "queued" = jobs.length := by
    show (initPool N jobs).svc.training_jobs.countP _ = jobs.length
    have hlen : (initPool N jobs).svc.training_jobs.length =
        jobs.length := by
      rw [ht2, List.length_map]
    rw [← hlen, List.countP_eq_length]
    intro kv hkv
    rw [ht2] at hkv
    have := initStore_statuses jobs kv hkv
    simp [this]
  have hw2 : (initPool N jobs).workers =
      List.replicate N WorkerPh.idle := rfl
  constructor
  · rw [hw2]
    exact List.length_replicate N WorkerPh.idle
  · rw [hkeys]
    exact hnd
  · intro id hid
    rw [hq2] at hid
    rw [ht2]
    exact initStore_get jobs id hid
  · intro id hid
    rw [hw2] at hid
    have := List.eq_of_mem_replicate hid
    cases this
  · intro id hid
    rw [hw2] at hid
    have := List.eq_of_mem_replicate hid
    cases this
  · rw [hrun0, hw2, countP_replicate_idle]
    rfl
  · rw [hqd, hq2, hw2, countP_replicate_idle]
    · simp
    · rfl
  · rw [hq2, hw2, countP_replicate_idle, countP_replicate_idle]
    · simp
    · rfl
    · rfl
  · show (heldIds (List.replicate N WorkerPh.idle) ++
      (initPool N jobs).svc.job_queue).Nodup
    rw [heldIds_replicate_idle, hq2]
    simpa using hnd

theorem statusCount_setRunningState (s : TrainingService) (id : String)
    (now : Nat) (st : String) (j : TrainingJob)
    (hnd : (s.training_jobs.map Prod.fst).Nodup)
    (hj : dictGet s.training_jobs id = some j) :
    statusCount (setRunningState s id now) st +
      (if j.status == st then 1 else 0) =
    statusCount s st + (if (("running" : String) == st) then 1 else 0) := by
  have hx := countP_mapUpdate s.training_jobs id j
    (fun j2 => { j2 with status := "running", started_at := now })
    (fun kv => kv.2.status == st) hnd hj
  exact hx

theorem poolInv_step (N numJobs : Nat) (p p2 : PoolState)
    (hinv : PoolInv N numJobs p) (hstep : PoolStep p p2) :
    PoolInv N numJobs p2 := by
  cases hstep with
  | pick i id rest hw hq =>
    have hidmem : id ∈ p.svc.job_queue := by
      rw [hq]
      exact List.mem_cons_self id rest
    have hperm_set : List.Perm
        (heldIds (p.workers.set i (WorkerPh.picked id)))
        (id :: heldIds (p.workers.eraseIdx i)) := by
      have hh := (set_perm_cons p.workers i (WorkerPh.picked id)
        WorkerPh.idle hw).filterMap heldId
      simpa [heldIds, List.filterMap_cons, heldId] using hh
    have hperm_old : List.Perm (heldIds p.workers)
        (heldIds (p.workers.eraseIdx i)) := by
      have hh := (get_perm_cons p.workers i WorkerPh.idle hw).filterMap
        heldId
      simpa [heldIds, List.filterMap_cons, heldId] using hh
    have hcb : (p.workers.set i (WorkerPh.picked id)).countP isBlocked =
        p.workers.countP isBlocked := by
      rw [List.Perm.countP_eq _ (set_perm_cons p.workers i _ _ hw),
        List.Perm.countP_eq _ (get_perm_cons p.workers i _ hw)]
      simp [List.countP_cons, isBlocked]
    have hcp : (p.workers.set i (WorkerPh.picked id)).countP isPicked =
        p.workers.countP isPicked + 1 := by
      rw [List.Perm.countP_eq _ (set_perm_cons p.workers i _ _ hw),
        List.Perm.countP_eq _ (get_perm_cons p.workers i _ hw)]
      simp [List.countP_cons, isPicked]
    constructor
    · rw [List.length_set]
      exact hinv.wlen
    · exact hinv.keysnd
    · intro id2 h2
      exact hinv.qstat id2 (by rw [hq]; exact List.mem_cons_of_mem id h2)
    · intro id2 h2
      rw [(set_perm_cons p.workers i _ _ hw).mem_iff] at h2
      rcases List.mem_cons.mp h2 with h3 | h3
      · obtain rfl : id2 = id := by injection h3
        exact hinv.qstat id2 hidmem
      · exact hinv.pstat id2
          ((get_perm_cons p.workers i _ hw).mem_iff.mpr
            (List.mem_cons_of_mem _ h3))
    · intro id2 h2
      rw [(set_perm_cons p.workers i _ _ hw).mem_iff] at h2
      rcases List.mem_cons.mp h2 with h3 | h3
      · cases h3
      · exact hinv.bstat id2
          ((get_perm_cons p.workers i _ hw).mem_iff.mpr
            (List.mem_cons_of_mem _ h3))
    · rw [hcb]
      exact hinv.runcount
    · have hx := hinv.qcount
      rw [hq] at hx
      rw [hcp]
      show statusCount p.svc "queued" = rest.length + _
      simp only [List.length_cons] at hx
      omega
    · have hx := hinv.total
      rw [hq] at hx
      rw [hcp, hcb]
      show rest.length + _ + _ = numJobs
      simp only [List.length_cons] at hx
      omega
    · show (heldIds (p.workers.set i (WorkerPh.picked id)) ++
        rest).Nodup
      have hnew : List.Perm
          (heldIds (p.workers.set i (WorkerPh.picked id)) ++ rest)
          (id :: (heldIds (p.workers.eraseIdx i) ++ rest)) :=
        hperm_set.append_right rest
      have hold : List.Perm (heldIds p.workers ++ p.svc.job_queue)
          (id :: (heldIds (p.workers.eraseIdx i) ++ rest)) := by
        rw [hq]
        exact (hperm_old.append_right _).trans List.perm_middle
      exact ((hold.trans hnew.symm).nodup hinv.owned)
  | skip i id hw habs =>
    exfalso
    obtain ⟨j, hj, _⟩ := hinv.pstat id (List.get?_mem hw)
    rw [habs] at hj
    cases hj
  | enter i id now j hw hj =>
    have hpmem : WorkerPh.picked id ∈ p.workers := List.get?_mem hw
    have hjq : j.status = "queued" := by
      obtain ⟨j2, hj2, hs2⟩ := hinv.pstat id hpmem
      rw [hj] at hj2
      rw [Option.some_inj.mp hj2]
      exact hs2
    have hperm_set : List.Perm
        (heldIds (p.workers.set i (WorkerPh.blocked id)))
        (id :: heldIds (p.workers.eraseIdx i)) := by
      have hh := (set_perm_cons p.workers i (WorkerPh.blocked id)
        (WorkerPh.picked id) hw).filterMap heldId
      simpa [heldIds, List.filterMap_cons, heldId] using hh
    have hperm_old : List.Perm (heldIds p.workers)
        (id :: heldIds (p.workers.eraseIdx i)) := by
      have hh := (get_perm_cons p.workers i (WorkerPh.picked id)
        hw).filterMap heldId
      simpa [heldIds, List.filterMap_cons, heldId] using hh
    have hwperm : List.Perm p.workers
        (WorkerPh.picked id :: p.workers.eraseIdx i) :=
      get_perm_cons p.workers i (WorkerPh.picked id) hw
    have hid_not_erase : id ∉ heldIds (p.workers.eraseIdx i) := by
      have hnd1 : (heldIds p.workers).Nodup :=
        (List.nodup_append.mp hinv.owned).1
      have := hperm_old.nodup hnd1
      exact (List.nodup_cons.mp this).1
    have hid_not_queue : id ∉ p.svc.job_queue := by
      have hdisj := (List.nodup_append.mp hinv.owned).2.2
      intro hmem
      exact hdisj (List.mem_filterMap.mpr
        ⟨WorkerPh.picked id, hpmem, rfl⟩) hmem
    have hne_of_erase : ∀ id2, id2 ∈ heldIds (p.workers.eraseIdx i) →
        id2 ≠ id := by
      intro id2 h2 he
      rw [he] at h2
      exact hid_not_erase h2
    have hcb : (p.workers.set i (WorkerPh.blocked id)).countP isBlocked =
        p.workers.countP isBlocked + 1 := by
      rw [List.Perm.countP_eq _ (set_perm_cons p.workers i _ _ hw),
        List.Perm.countP_eq _ (get_perm_cons p.workers i _ hw)]
      simp [List.countP_cons, isBlocked]
    have hcp : p.workers.countP isPicked =
        (p.workers.set i (WorkerPh.blocked id)).countP isPicked + 1 := by
      rw [List.Perm.countP_eq _ (set_perm_cons p.workers i _ _ hw),
        List.Perm.countP_eq _ (get_perm_cons p.workers i _ hw)]
      simp [List.countP_cons, isPicked]
    have hrun : statusCount (setRunningState p.svc id now) "running" =
        statusCount p.svc "running" + 1 := by
      have hx := statusCount_setRunningState p.svc id now "running" j
        hinv.keysnd hj
      rw [hjq, show (("queued" : String) == "running") = false from rfl,
        show (("running" : String) == "running") = true from rfl] at hx
      simpa using hx
    have hqd : statusCount p.svc "queued" =
        statusCount (setRunningState p.svc id now) "queued" + 1 := by
      have hx := statusCount_setRunningState p.svc id now "queued" j
        hinv.keysnd hj
      rw [hjq, show (("queued" : String) == "queued") = true from rfl,
        show (("running" : String) == "queued") = false from rfl] at hx
      simpa using hx.symm
    constructor
    · rw [List.length_set]
      exact hinv.wlen
    · have hkeys : (setRunningState p.svc id
          now).training_jobs.map Prod.fst =
          p.svc.training_jobs.map Prod.fst := keys_updateJob p.svc id
          (fun j2 => { j2 with status := "running", started_at := now })
      show ((setRunningState p.svc id now).training_jobs.map
        Prod.fst).Nodup
      rw [hkeys]
      exact hinv.keysnd
    · intro id2 h2
      have hne : id ≠ id2 := by
        intro he
        rw [he] at hid_not_queue
        exact hid_not_queue h2
      obtain ⟨j2, hj2, hs2⟩ := hinv.qstat id2 h2
      refine ⟨j2, ?_, hs2⟩
      rw [dictGet_setRunningState, if_neg hne]
      exact hj2
    · intro id2 h2
      rw [(set_perm_cons p.workers i _ _ hw).mem_iff] at h2
      rcases List.mem_cons.mp h2 with h3 | h3
      · cases h3
      · have hmem2 : id2 ∈ heldIds (p.workers.eraseIdx i) :=
          List.mem_filterMap.mpr ⟨WorkerPh.picked id2, h3, rfl⟩
        have hne : id ≠ id2 := fun he =>
          (hne_of_erase id2 hmem2) he.symm
        obtain ⟨j2, hj2, hs2⟩ := hinv.pstat id2
          (hwperm.mem_iff.mpr (List.mem_cons_of_mem _ h3))
        refine ⟨j2, ?_, hs2⟩
        rw [dictGet_setRunningState, if_neg hne]
        exact hj2
    · intro id2 h2
      rw [(set_perm_cons p.workers i _ _ hw).mem_iff] at h2
      rcases List.mem_cons.mp h2 with h3 | h3
      · obtain rfl : id2 = id := by injection h3
        refine ⟨{ j with status := "running", started_at := now }, ?_,
          rfl⟩
        rw [dictGet_setRunningState, if_pos rfl, hj, Option.map_some']
      · have hmem2 : id2 ∈ heldIds (p.workers.eraseIdx i) :=
          List.mem_filterMap.mpr ⟨WorkerPh.blocked id2, h3, rfl⟩
        have hne : id ≠ id2 := fun he =>
          (hne_of_erase id2 hmem2) he.symm
        obtain ⟨j2, hj2, hs2⟩ := hinv.bstat id2
          (hwperm.mem_iff.mpr (List.mem_cons_of_mem _ h3))
        refine ⟨j2, ?_, hs2⟩
        rw [dictGet_setRunningState, if_neg hne]
        exact hj2
    · show statusCount (setRunningState p.svc id now) "running" =
        (p.workers.set i (WorkerPh.blocked id)).countP isBlocked
      rw [hrun, hcb, hinv.runcount]
    · show statusCount (setRunningState p.svc id now) "queued" =
        (setRunningState p.svc id now).job_queue.length +
          (p.workers.set i (WorkerPh.blocked id)).countP isPicked
      have hq3 : (setRunningState p.svc id now).job_queue =
        p.svc.job_queue := rfl
      rw [hq3]
      have hx := hinv.qcount
      omega
    · show (setRunningState p.svc id now).job_queue.length +
        (p.workers.set i (WorkerPh.blocked id)).countP isPicked +
        (p.workers.set i (WorkerPh.blocked id)).countP isBlocked =
          numJobs
      have hq3 : (setRunningState p.svc id now).job_queue =
        p.svc.job_queue := rfl
      rw [hq3]
      have hx := hinv.total
      omega
    · show (heldIds (p.workers.set i (WorkerPh.blocked id)) ++
        p.svc.job_queue).Nodup
      have hpp : List.Perm (heldIds p.workers ++ p.svc.job_queue)
          (heldIds (p.workers.set i (WorkerPh.blocked id)) ++
            p.svc.job_queue) :=
        (hperm_old.trans hperm_set.symm).append_right _
      exact hpp.nodup hinv.owned

theorem poolInv_reachable (N numJobs : Nat) (p0 p : PoolState)
    (h0 : PoolInv N numJobs p0) (hreach : PoolReachable p0 p) :
    PoolInv N numJobs p := by
  induction hreach with
  | refl => exact h0
  | tail _ hstep ih => exact poolInv_step N numJobs _ _ ih hstep

/-- C9: in a pool constructed with `maxConcurrentJobs = N` into which
`N + 1` fresh jobs were submitted and whose executors block for ever, at
most `N` jobs are in status `running` in every reachable state; and in
every reachable state where no worker thread can take another step,
exactly `N` jobs are `running` and the single remaining job is still
`queued`, both in the store and on the job queue. -/
theorem C9_pool_thm (N : Nat) (jobs : List (String × TrainingConfig))
    (hlen : jobs.length = N + 1)
    (hnd : (jobs.map Prod.fst).Nodup) (p : PoolState)
    (hreach : PoolReachable (initPool N jobs) p) :
    statusCount p.svc "running" ≤ N ∧
    (Quiescent p → statusCount p.svc "running" = N ∧
      statusCount p.svc "queued" = 1 ∧ p.svc.job_queue.length = 1) := by
  have hinv := poolInv_reachable N jobs.length (initPool N jobs) p
    (initPool_inv N jobs hnd) hreach
  constructor
  · rw [hinv.runcount]
    calc p.workers.countP isBlocked ≤ p.workers.length :=
        List.countP_le_length _
      _ = N := hinv.wlen
  · intro hq
    have hnopick : ∀ w ∈ p.workers, ¬ (isPicked w = true) := by
      intro w hw hp2
      cases w with
      | idle => simp [isPicked] at hp2
      | blocked id => simp [isPicked] at hp2
      | picked id =>
        obtain ⟨i, hi⟩ := List.mem_iff_get?.mp hw
        obtain ⟨j, hj, _⟩ := hinv.pstat id hw
        exact hq _ (PoolStep.enter p i id 0 j hi hj)
    have hcp0 : p.workers.countP isPicked = 0 :=
      List.countP_eq_zero.mpr hnopick
    by_cases hidle : ∃ i, p.workers.get? i = some WorkerPh.idle
    · obtain ⟨i, hi⟩ := hidle
      rcases hqueue : p.svc.job_queue with _ | ⟨id, rest⟩
      · exfalso
        have htot := hinv.total
        rw [hqueue, hcp0, hlen] at htot
        have hble : p.workers.countP isBlocked ≤ N := by
          rw [← hinv.wlen]
          exact List.countP_le_length _
        simp at htot
        omega
      · exact absurd (PoolStep.pick p i id rest hi hqueue) (hq _)
    · have hball : ∀ w ∈ p.workers, isBlocked w = true := by
        intro w hw
        cases w with
        | idle =>
          exfalso
          obtain ⟨i, hi⟩ := List.mem_iff_get?.mp hw
          exact hidle ⟨i, hi⟩
        | picked id =>
          exact absurd rfl (hnopick _ hw)
        | blocked id => rfl
      have hcbN : p.workers.countP isBlocked = N := by
        rw [← hinv.wlen]
        exact List.countP_eq_length.mpr hball
      have hrunN : statusCount p.svc "running" = N := by
        rw [hinv.runcount, hcbN]
      have hql : p.svc.job_queue.length = 1 := by
        have htot := hinv.total
        rw [hcp0, hcbN, hlen] at htot
        omega
      refine ⟨hrunN, ?_, hql⟩
      rw [hinv.qcount, hql, hcp0]

/-- C9 (witness): the capacity theorem applied to pool size 1 with two
submitted jobs, at the reachable quiescent state where the single worker
has entered the executor of job `a` and blocked: exactly one job is
running and the other is still queued. -/
theorem C9_witness :
    statusCount c9PoolFinal.svc "running" = 1 ∧
    statusCount c9PoolFinal.svc "queued" = 1 ∧
    c9PoolFinal.svc.job_queue.length = 1 := by
  have hw0 : c9PoolInit.workers.get? 0 = some WorkerPh.idle := by decide
  have hq0 : c9PoolInit.svc.job_queue = "a" :: ["b"] := by decide
  have step1 : PoolStep c9PoolInit c9PoolMid :=
    PoolStep.pick c9PoolInit 0 "a" ["b"] hw0 hq0
  have hw1 : c9PoolMid.workers.get? 0 =
      some (WorkerPh.picked "a") := by decide
  have hsome : (dictGet c9PoolMid.svc.training_jobs "a").isSome =
      true := by decide
  rcases hj : dictGet c9PoolMid.svc.training_jobs "a" with _ | j
  · rw [hj] at hsome
    cases hsome
  · have step2 : PoolStep c9PoolMid c9PoolFinal :=
      PoolStep.enter c9PoolMid 0 "a" 5 j hw1 hj
    have hreach : PoolReachable c9PoolInit c9PoolFinal :=
      Relation.ReflTransGen.tail
        (Relation.ReflTransGen.tail Relation.ReflTransGen.refl step1)
        step2
    have hwl : c9PoolFinal.workers = [WorkerPh.blocked "a"] := by decide
    have hquiet : Quiescent c9PoolFinal := by
      intro p3 hstep
      cases hstep with
      | pick i id rest hw hq =>
        rw [hwl] at hw
        rcases i with _ | i <;> simp [List.get?] at hw
      | skip i id hw habs =>
        rw [hwl] at hw
        rcases i with _ | i <;> simp [List.get?] at hw
      | enter i id now j2 hw hj2 =>
        rw [hwl] at hw
        rcases i with _ | i <;> simp [List.get?] at hw
    exact (C9_pool_thm 1 c9Jobs (by decide) (by decide) c9PoolFinal
      hreach).2 hquiet

end LearningBigData
